import Mathlib

/-!
A verification development for the sorted-string-table (SST) stack of the
annotated LevelDB repository: the merging iterator (`table/merger.cc`), the
table builder (`table/table_builder.cc`), the filter block
(`table/filter_block.cc`), the two-level iterator
(`table/two_level_iterator.cc`) and the arena allocator (`util/arena.cc`).

The C++ code is shallowly embedded: byte strings (`Slice`, `std::string`)
become `List Nat` (each element a byte value), machine integers become `Nat`
with explicit `% 2 ^ w` where overflow matters, statuses become a small
inductive type, and the external collaborators (writable file, snappy, filter
policy, heap allocator) become explicit function parameters.  Helpers whose
implementation files are not part of this repository snapshot
(`util/coding`, `util/crc32c`, `table/block_builder.cc`,
`table/iterator_wrapper.h`) are modelled from the specification document, and
say so in their doc comments.
-/

namespace LevelDBProof

/-- Statuses, abstracted: `ok`, or an error carrying an identifying code
(the concrete kind/message of a `leveldb::Status` does not matter for the
properties proved here, only identity and ok-ness). -/
inductive Status where
  | ok : Status
  | err : Nat → Status
deriving DecidableEq, Repr

/-- Modelled from the spec: `PutFixed32` of `util/coding` (not in the
snapshot), 32-bit little-endian encoding, 4 bytes. -/
def putFixed32 (v : Nat) : List Nat :=
  [v % 256, v / 256 % 256, v / 65536 % 256, v / 16777216 % 256]

/-- Modelled from the spec: `DecodeFixed32` of `util/coding` (not in the
snapshot), reading 4 little-endian bytes of `l` starting at index `pos`
(out-of-range bytes read as 0; the C++ code never reads out of range on the
paths proved about). -/
def decodeFixed32At (l : List Nat) (pos : Nat) : Nat :=
  l.getD pos 0 + 256 * l.getD (pos + 1) 0 + 65536 * l.getD (pos + 2) 0 +
    16777216 * l.getD (pos + 3) 0

/-- The reflected CRC-32C (Castagnoli) polynomial. -/
def crcPoly : Nat := 0x82F63B78

/-- One bit step of the reflected CRC-32C computation. -/
def crcStepBit (c : Nat) : Nat :=
  if c % 2 = 1 then (c / 2) ^^^ crcPoly else c / 2

/-- Fold one input byte into a CRC-32C state: xor the byte in, then run
eight bit steps. -/
def crcStepByte (c b : Nat) : Nat :=
  crcStepBit^[8] (c ^^^ b)

/-- Modelled from the spec: `crc32c::Extend` of `util/crc32c` (not in the
snapshot).  Standard CRC-32C: the running value is inverted on entry and on
exit, so that `Extend` composes. -/
def crc32cExtend (init : Nat) (data : List Nat) : Nat :=
  (data.foldl crcStepByte (init ^^^ 0xFFFFFFFF)) ^^^ 0xFFFFFFFF

/-- Modelled from the spec: `crc32c::Value(data) = Extend(0, data)`. -/
def crc32cValue (data : List Nat) : Nat :=
  crc32cExtend 0 data

/-- `crc32c::Mask`, the rotation given bit-exactly by the spec:
`((c >> 15) | (c << 17)) + 0xa282ead8`, on 32-bit words. -/
def crc32cMask (c : Nat) : Nat :=
  (((c >>> 15) ||| (c <<< 17)) % 4294967296 + 0xa282ead8) % 4294967296

/-! ## Filter block (`table/filter_block.cc`) -/

/-- `kFilterBaseLg` from `table/filter_block.cc`: generate a new filter every
2 KiB of data. -/
def kFilterBaseLg : Nat := 11

/-- `kFilterBase = 1 << kFilterBaseLg`. -/
def kFilterBase : Nat := 2 ^ kFilterBaseLg

/-- State of `FilterBlockBuilder`: `keys_` (flattened key bytes), `start_`
(starting offset of each key inside `keys_`), `result_` (filter data computed
so far) and `filter_offsets_`.  The filter policy is passed to the operations
as an explicit function (`CreateFilter`). -/
structure FilterBlockBuilder where
  keys : List Nat
  start : List Nat
  result : List Nat
  filterOffsets : List Nat
deriving DecidableEq, Repr

/-- The freshly constructed `FilterBlockBuilder` (all members empty). -/
def fbInit : FilterBlockBuilder := ⟨[], [], [], []⟩

/-- `FilterBlockBuilder::AddKey`: record the key's start and append its
bytes to `keys_`. -/
def FilterBlockBuilder.addKey (b : FilterBlockBuilder) (key : List Nat) :
    FilterBlockBuilder :=
  { b with start := b.start ++ [b.keys.length], keys := b.keys ++ key }

/-- The list of key slices `tmp_keys_` that `GenerateFilter` reconstructs
from the flattened `keys_`/`start_` representation (after pushing
`keys_.size()` onto `start_` to simplify length computation). -/
def FilterBlockBuilder.tmpKeys (b : FilterBlockBuilder) : List (List Nat) :=
  let starts := b.start ++ [b.keys.length]
  (List.range b.start.length).map fun i =>
    (b.keys.drop (starts.getD i 0)).take (starts.getD (i + 1) 0 - starts.getD i 0)

/-- `FilterBlockBuilder::GenerateFilter`, with the policy's `CreateFilter`
passed as `cf`.  With no pending keys it records an empty filter (offset
only); otherwise it appends `cf` of the pending keys to `result_`, records
the filter's starting offset, and clears the pending keys. -/
def FilterBlockBuilder.generateFilter (cf : List (List Nat) → List Nat)
    (b : FilterBlockBuilder) : FilterBlockBuilder :=
  if b.start.length = 0 then
    { b with filterOffsets := b.filterOffsets ++ [b.result.length] }
  else
    { keys := [], start := [],
      result := b.result ++ cf b.tmpKeys,
      filterOffsets := b.filterOffsets ++ [b.result.length] }

/-- The loop of `FilterBlockBuilder::StartBlock`:
`while (filter_index > filter_offsets_.size()) GenerateFilter();`.
Each `GenerateFilter` call grows `filter_offsets_` by one, so the loop runs
exactly `filter_index - filter_offsets_.size()` times (when nonnegative);
that quantity is supplied as structural fuel. -/
def FilterBlockBuilder.startBlockLoop (cf : List (List Nat) → List Nat) :
    Nat → FilterBlockBuilder → Nat → FilterBlockBuilder
  | 0, b, _ => b
  | fuel + 1, b, filterIndex =>
    if filterIndex > b.filterOffsets.length then
      FilterBlockBuilder.startBlockLoop cf fuel (b.generateFilter cf) filterIndex
    else b

/-- `FilterBlockBuilder::StartBlock(block_offset)`:
`filter_index = block_offset / kFilterBase`, then generate filters until
`filter_offsets_.size() == filter_index`. -/
def FilterBlockBuilder.startBlock (cf : List (List Nat) → List Nat)
    (b : FilterBlockBuilder) (blockOffset : Nat) : FilterBlockBuilder :=
  let filterIndex := blockOffset / kFilterBase
  FilterBlockBuilder.startBlockLoop cf (filterIndex - b.filterOffsets.length) b
    filterIndex

/-- `FilterBlockBuilder::Finish`: generate a final filter if keys are
pending, then append the per-filter offset array, the offset-array start
(fixed32) and the single byte `kFilterBaseLg`. -/
def FilterBlockBuilder.finish (cf : List (List Nat) → List Nat)
    (b : FilterBlockBuilder) : List Nat :=
  let b1 := if b.start.length ≠ 0 then b.generateFilter cf else b
  let arrayOffset := b1.result.length
  b1.result ++ (b1.filterOffsets.map putFixed32).flatten ++ putFixed32 arrayOffset
    ++ [kFilterBaseLg]

/-- State of `FilterBlockReader`.  `contents` is the slice the reader was
constructed over (`data_` points at its first byte), `valid` is
`data_ != nullptr`, `offsetStart` is `offset_ - data_` (the byte offset of
the offset array), `num` is `num_`, `baseLg` is `base_lg_`. -/
structure FilterBlockReader where
  contents : List Nat
  valid : Bool
  offsetStart : Nat
  num : Nat
  baseLg : Nat
deriving DecidableEq, Repr

/-- The `FilterBlockReader` constructor: bail out (members zeroed) when the
contents are shorter than 5 bytes or when the decoded offset-array start
exceeds `n - 5`; otherwise record the offset-array position and
`num_ = (n - 5 - last_word) / 4`. -/
def mkFilterBlockReader (contents : List Nat) : FilterBlockReader :=
  let n := contents.length
  if n < 5 then ⟨contents, false, 0, 0, 0⟩
  else
    let baseLg := contents.getD (n - 1) 0
    let lastWord := decodeFixed32At contents (n - 5)
    if lastWord > n - 5 then ⟨contents, false, 0, 0, baseLg⟩
    else ⟨contents, true, lastWord, (n - 5 - lastWord) / 4, baseLg⟩

/-- `FilterBlockReader::KeyMayMatch(block_offset, key)`, with the policy's
`KeyMayMatch(key, filter)` passed as `policy`.  Mirrors the source: compute
`index = block_offset >> base_lg_`; inside range, read `start`/`limit` from
the offset array; when `start <= limit && limit <= offset_ - data_` delegate
to the policy on the filter slice; otherwise `start == limit` is a hard
no-match, and any other inconsistency is a potential match. -/
def keyMayMatch (policy : List Nat → List Nat → Bool) (r : FilterBlockReader)
    (blockOffset : Nat) (key : List Nat) : Bool :=
  let index := blockOffset >>> r.baseLg
  if index < r.num then
    let start := decodeFixed32At r.contents (r.offsetStart + index * 4)
    let limit := decodeFixed32At r.contents (r.offsetStart + index * 4 + 4)
    if start ≤ limit ∧ limit ≤ r.offsetStart then
      policy key ((r.contents.drop start).take (limit - start))
    else if start = limit then
      false
    else
      true
  else true

/-! ## Block builder and table builder (`table/table_builder.cc`) -/

/-- Modelled from the spec: varint encoding of `util/coding` (not in the
snapshot): 7 bits per byte, little-endian, high bit marks continuation. -/
def putVarint (v : Nat) : List Nat :=
  if h : v < 128 then [v]
  else (v % 128 + 128) :: putVarint (v / 128)
termination_by v
decreasing_by omega

/-- Length of the longest common prefix of two byte strings. -/
def commonPrefixLen : List Nat → List Nat → Nat
  | a :: as, b :: bs => if a = b then commonPrefixLen as bs + 1 else 0
  | _, _ => 0

/-- Modelled from the spec: `BlockBuilder` state (`table/block_builder.cc`
is not in the snapshot; `table/block_builder.h` declares `buffer_`,
`restarts_`, `counter_`, `last_key_`).  `restarts` includes the initial
restart at offset 0 required by the block invariant `restart_offsets[0] = 0`. -/
structure BlockBuilder where
  buffer : List Nat
  restarts : List Nat
  counter : Nat
  lastKey : List Nat
deriving DecidableEq, Repr

/-- Modelled from the spec: a freshly constructed (or `Reset`) block
builder: empty buffer, one restart at offset 0, zero intra-group counter. -/
def blockBuilderInit : BlockBuilder := ⟨[], [0], 0, []⟩

/-- Modelled from the spec: `BlockBuilder::Add(key, value)`.  Within a
restart group the key is delta-encoded against the previous key; every
`block_restart_interval` records the builder emits a restart (pushes the
current buffer offset, forces `shared = 0`, resets the counter).  A record
is `shared | non_shared | value_len | key_delta | value` with varint integer
fields. -/
def BlockBuilder.add (interval : Nat) (bb : BlockBuilder)
    (key value : List Nat) : BlockBuilder :=
  if bb.counter < interval then
    let shared := commonPrefixLen bb.lastKey key
    { buffer := bb.buffer ++ putVarint shared ++ putVarint (key.length - shared)
        ++ putVarint value.length ++ key.drop shared ++ value,
      restarts := bb.restarts, counter := bb.counter + 1, lastKey := key }
  else
    { buffer := bb.buffer ++ putVarint 0 ++ putVarint key.length
        ++ putVarint value.length ++ key ++ value,
      restarts := bb.restarts ++ [bb.buffer.length], counter := 1,
      lastKey := key }

/-- `BlockBuilder::empty()`: whether the buffer is empty. -/
def BlockBuilder.isBufferEmpty (bb : BlockBuilder) : Bool := bb.buffer.isEmpty

/-- Modelled from the spec: `BlockBuilder::CurrentSizeEstimate()`: buffer
size plus 4 bytes per entry of the restart array plus 4 bytes for the
restart count. -/
def BlockBuilder.currentSizeEstimate (bb : BlockBuilder) : Nat :=
  bb.buffer.length + bb.restarts.length * 4 + 4

/-- Modelled from the spec: `BlockBuilder::Finish()`: the buffer followed by
the fixed32 restart offsets and the fixed32 restart count. -/
def BlockBuilder.finish (bb : BlockBuilder) : List Nat :=
  bb.buffer ++ (bb.restarts.map putFixed32).flatten ++ putFixed32 bb.restarts.length

/-- `BlockHandle`: offset and size of a block payload. -/
structure BlockHandle where
  offset : Nat
  size : Nat
deriving DecidableEq, Repr

/-- `BlockHandle::EncodeTo`: varint64 offset followed by varint64 size. -/
def BlockHandle.encodeTo (h : BlockHandle) : List Nat :=
  putVarint h.offset ++ putVarint h.size

/-- `CompressionType` (`kNoCompression = 0`, `kSnappyCompression = 1`). -/
inductive CompressionType where
  | noCompression : CompressionType
  | snappyCompression : CompressionType
deriving DecidableEq, Repr

/-- The on-disk byte of a `CompressionType`. -/
def CompressionType.byte : CompressionType → Nat
  | .noCompression => 0
  | .snappyCompression => 1

/-- The external `WritableFile`: the outcome of each `Append` (as a function
of the appended bytes) and of `Flush`.  An always-`ok` environment models a
file whose writes all succeed. -/
structure FileEnv where
  appendRes : List Nat → Status
  flushRes : Status

/-- The injected strategies and options a `TableBuilder` consults:
`block_size`, `block_restart_interval`, the compression choice, the external
`port::Snappy_Compress` (`none` models "snappy not supported / failed"), the
comparator's shortening hints, and the filter policy's `CreateFilter`
(`none` models a null `filter_policy`). -/
structure BuildOptions where
  blockSize : Nat
  blockRestartInterval : Nat
  compression : CompressionType
  snappyCompress : List Nat → Option (List Nat)
  findShortestSeparator : List Nat → List Nat → List Nat
  findShortSuccessor : List Nat → List Nat
  filterPolicy : Option (List (List Nat) → List Nat)

/-- `TableBuilder::Rep`.  `file` holds the bytes successfully appended to
the writable file so far.  `dataBlocksWritten` is a ghost counter (not a C++
member) counting the data blocks emitted by `Flush`, used only to state the
`pending_index_entry` invariant. -/
structure Rep where
  offset : Nat
  status : Status
  file : List Nat
  dataBlock : BlockBuilder
  indexBlock : BlockBuilder
  lastKey : List Nat
  numEntries : Nat
  closed : Bool
  filterBlock : Option FilterBlockBuilder
  pendingIndexEntry : Bool
  pendingHandle : BlockHandle
  dataBlocksWritten : Nat

/-- The `TableBuilder` constructor: zero offset, ok status, empty blocks,
`pending_index_entry = false`; when a filter policy is present the filter
builder is constructed and `StartBlock(0)` is called on it. -/
def initRep (opt : BuildOptions) : Rep :=
  { offset := 0, status := Status.ok, file := [],
    dataBlock := blockBuilderInit, indexBlock := blockBuilderInit,
    lastKey := [], numEntries := 0, closed := false,
    filterBlock := opt.filterPolicy.map fun cf =>
      FilterBlockBuilder.startBlock cf fbInit 0,
    pendingIndexEntry := false, pendingHandle := ⟨0, 0⟩,
    dataBlocksWritten := 0 }

/-- `kBlockTrailerSize`: 1 type byte + 4 CRC bytes. -/
def kBlockTrailerSize : Nat := 5

/-- `TableBuilder::WriteRawBlock(block_contents, type, handle)`: set the
handle to the current offset and the contents size; `Append` the contents;
on success build the 5-byte trailer (type byte, then the masked CRC-32C of
the contents extended with the type byte, fixed32) and `Append` it; when
that also succeeds advance `offset` by `size + kBlockTrailerSize`. -/
def writeRawBlock (env : FileEnv) (r : Rep) (blockContents : List Nat)
    (t : CompressionType) : Rep × BlockHandle :=
  let handle : BlockHandle := ⟨r.offset, blockContents.length⟩
  let s1 := env.appendRes blockContents
  let r1 := { r with status := s1,
                     file := if s1 = Status.ok then r.file ++ blockContents
                             else r.file }
  if s1 = Status.ok then
    let crc := crc32cExtend (crc32cValue blockContents) [t.byte]
    let trailer := t.byte :: putFixed32 (crc32cMask crc)
    let s2 := env.appendRes trailer
    let r2 := { r1 with status := s2,
                        file := if s2 = Status.ok then r1.file ++ trailer
                                else r1.file }
    if s2 = Status.ok then
      ({ r2 with offset := r.offset + blockContents.length + kBlockTrailerSize },
        handle)
    else (r2, handle)
  else (r1, handle)

/-- `TableBuilder::WriteBlock(block, handle)`: finish the block; under
snappy compression use the compressed form only when `Snappy_Compress`
succeeds and the result is shorter than `raw.size - raw.size/8`, otherwise
fall back to the raw contents with `kNoCompression`; call `WriteRawBlock`;
reset the block builder (returned as the third component). -/
def writeBlock (env : FileEnv) (opt : BuildOptions) (r : Rep)
    (bb : BlockBuilder) : Rep × BlockHandle × BlockBuilder :=
  let raw := bb.finish
  let choice : List Nat × CompressionType :=
    match opt.compression with
    | CompressionType.noCompression => (raw, CompressionType.noCompression)
    | CompressionType.snappyCompression =>
      match opt.snappyCompress raw with
      | some compressed =>
        if compressed.length < raw.length - raw.length / 8 then
          (compressed, CompressionType.snappyCompression)
        else (raw, CompressionType.noCompression)
      | none => (raw, CompressionType.noCompression)
  let res := writeRawBlock env r choice.1 choice.2
  (res.1, res.2, blockBuilderInit)

/-- `TableBuilder::Flush()`: no-op when the status is non-ok or the data
block is empty; otherwise write the data block (setting `pending_handle`),
on success set `pending_index_entry` and flush the file, and finally tell
the filter builder the next data block's starting offset. -/
def tbFlush (env : FileEnv) (opt : BuildOptions) (r : Rep) : Rep :=
  if r.status ≠ Status.ok then r
  else if r.dataBlock.isBufferEmpty then r
  else
    let res := writeBlock env opt r r.dataBlock
    let r1 := { res.1 with dataBlock := res.2.2, pendingHandle := res.2.1,
                           dataBlocksWritten := r.dataBlocksWritten + 1 }
    let r2 := if r1.status = Status.ok then
                { r1 with pendingIndexEntry := true, status := env.flushRes }
              else r1
    match r2.filterBlock, opt.filterPolicy with
    | some fb, some cf =>
      { r2 with filterBlock := some (FilterBlockBuilder.startBlock cf fb r2.offset) }
    | _, _ => r2

/-- `TableBuilder::Add(key, value)`: no-op on non-ok status.  When
`pending_index_entry` is set, shorten `last_key` towards the new key with
`FindShortestSeparator`, add the pending handle to the index block (whose
restart interval is 1) and clear the flag.  Then add the key to the filter
builder, record it as `last_key`, bump `num_entries`, add the record to the
data block, and `Flush` when the size estimate reaches `block_size`. -/
def tbAdd (env : FileEnv) (opt : BuildOptions) (r : Rep)
    (key value : List Nat) : Rep :=
  if r.status ≠ Status.ok then r
  else
    let r1 :=
      if r.pendingIndexEntry then
        let sep := opt.findShortestSeparator r.lastKey key
        { r with lastKey := sep,
                 indexBlock := r.indexBlock.add 1 sep r.pendingHandle.encodeTo,
                 pendingIndexEntry := false }
      else r
    let r2 := match r1.filterBlock with
      | some fb => { r1 with filterBlock := some (fb.addKey key) }
      | none => r1
    let r3 := { r2 with lastKey := key, numEntries := r2.numEntries + 1,
                        dataBlock := r2.dataBlock.add opt.blockRestartInterval key value }
    if opt.blockSize ≤ r3.dataBlock.currentSizeEstimate then tbFlush env opt r3
    else r3

/-- The public mutating operations of the building phase.  `Finish` (and
`Abandon`) close the builder: `closed` is asserted false by every public
operation, so a well-formed operation sequence has them only in final
position — the points *between* operations are therefore exactly the states
reached by folding `Add`/`Flush` steps from the initial state. -/
inductive BuilderOp where
  | add : List Nat → List Nat → BuilderOp
  | flush : BuilderOp

/-- Run one public operation. -/
def applyOp (env : FileEnv) (opt : BuildOptions) (r : Rep) :
    BuilderOp → Rep
  | BuilderOp.add k v => tbAdd env opt r k v
  | BuilderOp.flush => tbFlush env opt r

/-- Run a sequence of public operations from a state. -/
def applyOps (env : FileEnv) (opt : BuildOptions) (r : Rep)
    (ops : List BuilderOp) : Rep :=
  ops.foldl (applyOp env opt) r

/-! ## Merging iterator (`table/merger.cc`)

A child iterator is embedded as the list of key/value pairs it has left to
yield: after `SeekToFirst` on all children every child is its whole sorted
sequence, `Valid()` is nonemptiness, `key()` is the head's key, `Next()` is
`tail` (`table/iterator_wrapper.h`, not in the snapshot, merely caches
`key()`/`Valid()` of the wrapped iterator).  Keys live in an arbitrary
linearly ordered type, embedding "every comparator defining a total order". -/

/-- `MergingIterator::FindSmallest`'s scan, with the running index `i` and
the best child found so far (its index and its cached key): a child replaces
the best exactly when it is valid and its key is strictly smaller (so the
lowest index wins ties), scanning children left to right. -/
def findSmallestAux {α β : Type _} [LinearOrder α] (best : Option (Nat × α))
    (i : Nat) (cs : List (List (α × β))) : Option (Nat × α) :=
  match cs with
  | [] => best
  | c :: rest =>
    findSmallestAux
      (match c with
       | [] => best
       | (k, _) :: _ =>
         match best with
         | none => some (i, k)
         | some (_, bk) => if k < bk then some (i, k) else best)
      (i + 1) rest

/-- `MergingIterator::FindSmallest`: the index (and key) of the valid child
with the smallest key, or `none` when no child is valid. -/
def findSmallest {α β : Type _} [LinearOrder α] (cs : List (List (α × β))) :
    Option (Nat × α) :=
  findSmallestAux none 0 cs

/-- Total number of entries left across all children; the exact number of
iterations a full forward iteration performs, supplied as structural fuel. -/
def sumLen {α β : Type _} (cs : List (List (α × β))) : Nat :=
  (cs.map List.length).sum

/-- One full forward iteration of `MergingIterator` (`SeekToFirst`, then
`key()/value()` and `Next()` while `Valid()`), given enough fuel: find the
smallest child (`current_`), if none the iterator is invalid and iteration
stops; otherwise yield that child's head entry, advance that child
(`current_->Next()`) and continue (`Next()` re-runs `FindSmallest`; the
direction stays `kForward` throughout, so the reverse repositioning branch
of `Next()` never runs). -/
def mergeForwardFuel {α β : Type _} [LinearOrder α] (fuel : Nat)
    (cs : List (List (α × β))) : List (α × β) :=
  match fuel with
  | 0 => []
  | fuel' + 1 =>
    match findSmallest cs with
    | none => []
    | some (i, _) =>
      match cs.getD i [] with
      | [] => []
      | e :: t => e :: mergeForwardFuel fuel' (cs.set i t)

/-- The key/value sequence a full forward iteration of the merging iterator
yields over children `cs`. -/
def mergeForward {α β : Type _} [LinearOrder α] (cs : List (List (α × β))) :
    List (α × β) :=
  mergeForwardFuel (sumLen cs) cs

/-- Nondecreasing keys: the sortedness of a child's key sequence. -/
abbrev keySorted {α β : Type _} [LinearOrder α] (l : List (α × β)) : Prop :=
  l.Sorted fun x y => x.1 ≤ y.1

/-! ## Two-level iterator (`table/two_level_iterator.cc`) -/

/-- The observable face of a (second-level) data iterator: cached validity,
current entry, and status. -/
structure DataIterView where
  valid : Bool
  key : List Nat
  value : List Nat
  status : Status
deriving DecidableEq, Repr

/-- The part of `TwoLevelIterator`'s state its accessors consult:
`status_`, the index iterator's status, and `data_iter_` (whose wrapped
iterator may be null, modelled as `none`; a wrapper around a null iterator
reports `Valid() = false`). -/
structure TwoLevelIterState where
  savedStatus : Status
  indexStatus : Status
  dataIter : Option DataIterView
deriving DecidableEq, Repr

/-- `TwoLevelIterator::Valid()`: delegates to `data_iter_.Valid()`. -/
def tlValid (s : TwoLevelIterState) : Bool :=
  match s.dataIter with
  | some d => d.valid
  | none => false

/-- `TwoLevelIterator::key()`: delegates to `data_iter_.key()`. -/
def tlKey (s : TwoLevelIterState) : List Nat :=
  match s.dataIter with
  | some d => d.key
  | none => []

/-- `TwoLevelIterator::value()`: delegates to `data_iter_.value()`. -/
def tlValue (s : TwoLevelIterState) : List Nat :=
  match s.dataIter with
  | some d => d.value
  | none => []

/-- `TwoLevelIterator::status()`: the index iterator's status when non-ok;
otherwise the data iterator's status when one exists and it is non-ok;
otherwise the saved `status_`. -/
def tlStatus (s : TwoLevelIterState) : Status :=
  if s.indexStatus ≠ Status.ok then s.indexStatus
  else
    match s.dataIter with
    | some d => if d.status ≠ Status.ok then d.status else s.savedStatus
    | none => s.savedStatus

/-! ## Arena (`util/arena.cc`)

Pointers are embedded as `Nat` addresses.  The C++ heap (`new char[n]`) is
an external collaborator, embedded as a function `heap` from the allocation
count (how many blocks the arena has already allocated) to the address of
the next fresh block; `operator new` guarantees such addresses are aligned
for fundamental types, which hypotheses of the theorems express as
divisibility by 8 (a 64-bit platform: `sizeof(void*) = 8`,
`sizeof(char*) = 8`). -/

/-- `kBlockSize` of `util/arena.cc`. -/
def kArenaBlockSize : Nat := 4096

/-- Arena state: `alloc_ptr_` (an address), `alloc_bytes_remaining_`,
`blocks_` (the addresses of allocated slabs) and `memory_usage_`. -/
structure Arena where
  allocPtr : Nat
  allocBytesRemaining : Nat
  blocks : List Nat
  memoryUsage : Nat
deriving DecidableEq, Repr

/-- The `Arena` constructor: null `alloc_ptr_`, nothing remaining. -/
def arenaInit : Arena := ⟨0, 0, [], 0⟩

/-- `Arena::AllocateNewBlock(block_bytes)`: get a fresh slab from the heap,
record it in `blocks_`, add `block_bytes + sizeof(char*)` to
`memory_usage_`, return the slab's address. -/
def allocateNewBlock (heap : Nat → Nat) (a : Arena) (blockBytes : Nat) :
    Nat × Arena :=
  let addr := heap a.blocks.length
  (addr, { a with blocks := a.blocks ++ [addr],
                  memoryUsage := a.memoryUsage + blockBytes + 8 })

/-- `Arena::AllocateFallback(bytes)`: objects over a quarter of the slab
size get a private slab; otherwise start a fresh slab of `kBlockSize` and
carve `bytes` from its front. -/
def allocateFallback (heap : Nat → Nat) (a : Arena) (bytes : Nat) :
    Nat × Arena :=
  if bytes > kArenaBlockSize / 4 then allocateNewBlock heap a bytes
  else
    let res := allocateNewBlock heap a kArenaBlockSize
    (res.1, { res.2 with allocPtr := res.1 + bytes,
                         allocBytesRemaining := kArenaBlockSize - bytes })

/-- `Arena::Allocate(bytes)`: carve from the current slab when it has room,
else fall back. -/
def allocate (heap : Nat → Nat) (a : Arena) (bytes : Nat) : Nat × Arena :=
  if bytes ≤ a.allocBytesRemaining then
    (a.allocPtr, { a with allocPtr := a.allocPtr + bytes,
                          allocBytesRemaining := a.allocBytesRemaining - bytes })
  else allocateFallback heap a bytes

/-- `Arena::AllocateAligned(bytes)` with `align = max(sizeof(void*), 8) = 8`:
compute the slop that rounds `alloc_ptr_` up to a multiple of 8, serve
`alloc_ptr_ + slop` from the current slab when `bytes + slop` fits, else
fall back (a fresh slab is suitably aligned by the heap's guarantee). -/
def allocateAligned (heap : Nat → Nat) (a : Arena) (bytes : Nat) :
    Nat × Arena :=
  let align := 8
  let currentMod := a.allocPtr % align
  let slop := if currentMod = 0 then 0 else align - currentMod
  let needed := bytes + slop
  if needed ≤ a.allocBytesRemaining then
    (a.allocPtr + slop, { a with allocPtr := a.allocPtr + needed,
                                 allocBytesRemaining := a.allocBytesRemaining - needed })
  else allocateFallback heap a bytes

/-! ## Helper lemmas -/

/-- Xor-ing the same mask twice is the identity (used to compose CRC runs). -/
theorem xor_xor_cancel (x m : Nat) : x ^^^ m ^^^ m = x := by
  rw [Nat.xor_assoc, Nat.xor_self, Nat.xor_zero]

/-- `crc32c::Extend` composes: extending a CRC over `a` by `b` equals the
CRC over `a ++ b`. -/
theorem crc32cExtend_append (init : Nat) (a b : List Nat) :
    crc32cExtend (crc32cExtend init a) b = crc32cExtend init (a ++ b) := by
  unfold crc32cExtend
  rw [List.foldl_append, xor_xor_cancel]

/-! ## C8: mutation is rejected on non-ok status -/

/-- C8: for every `TableBuilder` whose recorded status is non-ok, `Add` and
`Flush` are no-ops: the whole `Rep` — in particular `num_entries`,
`last_key`, the file offset, the data block, the index block, the filter
builder and the file bytes — is unchanged. -/
theorem tbAdd_tbFlush_noop_of_error (env : FileEnv) (opt : BuildOptions)
    (r : Rep) (key value : List Nat) (h : r.status ≠ Status.ok) :
    tbAdd env opt r key value = r ∧ tbFlush env opt r = r := by
  unfold tbAdd tbFlush
  rw [if_pos h, if_pos h]
  exact ⟨rfl, rfl⟩

/-- Witness for C8 at a concrete errored builder state. -/
theorem tbAdd_tbFlush_noop_of_error_witness :
    ({ initRep ⟨4096, 16, CompressionType.noCompression, fun _ => none,
         fun a _ => a, fun a => a, none⟩ with
       status := Status.err 3 } : Rep).status ≠ Status.ok ∧
    (tbAdd ⟨fun _ => Status.ok, Status.ok⟩
       ⟨4096, 16, CompressionType.noCompression, fun _ => none,
         fun a _ => a, fun a => a, none⟩
       { initRep ⟨4096, 16, CompressionType.noCompression, fun _ => none,
           fun a _ => a, fun a => a, none⟩ with status := Status.err 3 }
       [1] [2] =
     { initRep ⟨4096, 16, CompressionType.noCompression, fun _ => none,
         fun a _ => a, fun a => a, none⟩ with status := Status.err 3 } ∧
     tbFlush ⟨fun _ => Status.ok, Status.ok⟩
       ⟨4096, 16, CompressionType.noCompression, fun _ => none,
         fun a _ => a, fun a => a, none⟩
       { initRep ⟨4096, 16, CompressionType.noCompression, fun _ => none,
           fun a _ => a, fun a => a, none⟩ with status := Status.err 3 } =
     { initRep ⟨4096, 16, CompressionType.noCompression, fun _ => none,
         fun a _ => a, fun a => a, none⟩ with status := Status.err 3 }) :=
  ⟨by simp [initRep], tbAdd_tbFlush_noop_of_error _ _ _ [1] [2] (by simp [initRep])⟩

/-! ## C9: aligned allocation -/

/-- C9: in every arena state (hence after every sequence of allocations),
`AllocateAligned(bytes)` with `bytes > 0` returns an address that is a
multiple of `max(sizeof(void*), 8) = 8` (64-bit platform: its low 3 bits
are zero), on the in-slab path and on both fallback paths, provided the
heap hands out 8-aligned slabs (the `operator new` guarantee). -/
theorem allocateAligned_aligned (heap : Nat → Nat) (a : Arena) (bytes : Nat)
    (hheap : ∀ n, heap n % 8 = 0) (_hbytes : 0 < bytes) :
    (allocateAligned heap a bytes).1 % 8 = 0 := by
  unfold allocateAligned allocateFallback allocateNewBlock
  dsimp only
  repeat' split
  all_goals first | exact hheap _ | omega

/-- Witness for C9: a concrete 8-aligned heap, the fresh arena, 3 bytes. -/
theorem allocateAligned_aligned_witness :
    (∀ n : Nat, (fun _ : Nat => 16) n % 8 = 0) ∧ 0 < 3 ∧
    (allocateAligned (fun _ : Nat => 16) arenaInit 3).1 % 8 = 0 :=
  ⟨fun _ => by norm_num, by decide,
    allocateAligned_aligned (fun _ => 16) arenaInit 3 (fun _ => by norm_num)
      (by decide)⟩

/-! ## C10: malformed filter-block contents fail open -/

/-- C10: when the filter-block contents are shorter than 5 bytes, or the
decoded offset-array start exceeds `n - 5`, the constructed reader has
`num_ = 0` and `KeyMayMatch` returns `true` for every policy, block offset
and key. -/
theorem keyMayMatch_of_malformed_contents (contents : List Nat)
    (policy : List Nat → List Nat → Bool) (blockOffset : Nat) (key : List Nat)
    (h : contents.length < 5 ∨
      contents.length - 5 < decodeFixed32At contents (contents.length - 5)) :
    (mkFilterBlockReader contents).num = 0 ∧
    keyMayMatch policy (mkFilterBlockReader contents) blockOffset key = true := by
  have hnum : (mkFilterBlockReader contents).num = 0 := by
    unfold mkFilterBlockReader
    by_cases hl : contents.length < 5
    · simp [hl]
    · rcases h with h | h
      · exact absurd h hl
      · simp only [if_neg hl]
        rw [if_pos h]
  refine ⟨hnum, ?_⟩
  unfold keyMayMatch
  simp [hnum]

/-- Witness for C10 at truncated contents `[1, 2, 3]`. -/
theorem keyMayMatch_of_malformed_contents_witness :
    (([1, 2, 3] : List Nat).length < 5 ∨
      ([1, 2, 3] : List Nat).length - 5 <
        decodeFixed32At [1, 2, 3] (([1, 2, 3] : List Nat).length - 5)) ∧
    ((mkFilterBlockReader [1, 2, 3]).num = 0 ∧
      keyMayMatch (fun _ _ => false) (mkFilterBlockReader [1, 2, 3]) 77 [5] = true) :=
  ⟨Or.inl (by decide),
    keyMayMatch_of_malformed_contents [1, 2, 3] (fun _ _ => false) 77 [5]
      (Or.inl (by decide))⟩

/-! ## C3: an in-range empty filter (`start == limit`) -/

/-- C3 counterexample: a well-formed filter block produced by
`FilterBlockBuilder` itself — `StartBlock(2048)` with no keys, then
`Finish` — yields one empty filter (`start == limit == 0`, within bounds).
On it, `KeyMayMatch(0, key)` *does* consult the policy (here the constant
`true` policy) and returns `true`, not `false` as the claim states. -/
theorem keyMayMatch_empty_filter_consults_policy :
    keyMayMatch (fun _ _ => true)
      (mkFilterBlockReader
        (FilterBlockBuilder.finish (fun _ => [9, 9])
          (FilterBlockBuilder.startBlock (fun _ => [9, 9]) fbInit 2048)))
      0 [5] = true := by
  decide

/-- C3 amended: when `index < num` and the offset array yields
`start = limit` for the selected filter, `KeyMayMatch` returns `false`
without consulting the policy only in the *malformed* case
`limit > offset_ - data_`; in the well-formed case
`limit ≤ offset_ - data_` it delegates to
`FilterPolicy::KeyMayMatch(key, empty slice)` instead. -/
theorem keyMayMatch_start_eq_limit (policy : List Nat → List Nat → Bool)
    (r : FilterBlockReader) (blockOffset : Nat) (key : List Nat)
    (hidx : blockOffset >>> r.baseLg < r.num)
    (heq : decodeFixed32At r.contents
        (r.offsetStart + (blockOffset >>> r.baseLg) * 4) =
      decodeFixed32At r.contents
        (r.offsetStart + (blockOffset >>> r.baseLg) * 4 + 4)) :
    (decodeFixed32At r.contents
        (r.offsetStart + (blockOffset >>> r.baseLg) * 4 + 4) ≤ r.offsetStart →
      keyMayMatch policy r blockOffset key = policy key []) ∧
    (r.offsetStart < decodeFixed32At r.contents
        (r.offsetStart + (blockOffset >>> r.baseLg) * 4 + 4) →
      keyMayMatch policy r blockOffset key = false) := by
  constructor
  · intro hle
    unfold keyMayMatch
    rw [if_pos hidx, if_pos ⟨le_of_eq heq, hle⟩, heq]
    simp
  · intro hgt
    unfold keyMayMatch
    rw [if_pos hidx, if_neg (by push_neg; intro _; omega), if_pos heq]

/-- Witness for the amended C3 at the builder-produced block of the
counterexample: the well-formed branch applies and the call equals the
policy applied to the empty filter. -/
theorem keyMayMatch_start_eq_limit_witness :
    (0 : Nat) >>>
        (mkFilterBlockReader
          (FilterBlockBuilder.finish (fun _ => [9, 9])
            (FilterBlockBuilder.startBlock (fun _ => [9, 9]) fbInit 2048))).baseLg <
      (mkFilterBlockReader
        (FilterBlockBuilder.finish (fun _ => [9, 9])
          (FilterBlockBuilder.startBlock (fun _ => [9, 9]) fbInit 2048))).num ∧
    ((mkFilterBlockReader
        (FilterBlockBuilder.finish (fun _ => [9, 9])
          (FilterBlockBuilder.startBlock (fun _ => [9, 9]) fbInit 2048))).contents.getD 0 0 =
      (mkFilterBlockReader
        (FilterBlockBuilder.finish (fun _ => [9, 9])
          (FilterBlockBuilder.startBlock (fun _ => [9, 9]) fbInit 2048))).contents.getD 4 0) ∧
    keyMayMatch (fun _ f => f.isEmpty)
      (mkFilterBlockReader
        (FilterBlockBuilder.finish (fun _ => [9, 9])
          (FilterBlockBuilder.startBlock (fun _ => [9, 9]) fbInit 2048)))
      0 [5] = (fun (_ : List Nat) (f : List Nat) => f.isEmpty) [5] [] :=
  ⟨by decide, by decide,
    (keyMayMatch_start_eq_limit (fun _ f => f.isEmpty)
      (mkFilterBlockReader
        (FilterBlockBuilder.finish (fun _ => [9, 9])
          (FilterBlockBuilder.startBlock (fun _ => [9, 9]) fbInit 2048)))
      0 [5] (by decide) (by decide)).1 (by decide)⟩

/-! ## C7: two-level iterator accessor delegation -/

/-- C7 counterexample: a state whose index iterator and data iterator both
hold non-ok statuses.  `status()` returns the *index* iterator's status
(`err 1`), not the data iterator's (`err 2`), refuting "when the data
iterator holds a non-ok status, `status()` returns that data-iterator
status". -/
theorem tlStatus_prefers_index_error :
    tlStatus ⟨Status.ok, Status.err 1, some ⟨true, [], [], Status.err 2⟩⟩ =
        Status.err 1 ∧
      Status.err 1 ≠ Status.err 2 ∧
      (some (⟨true, [], [], Status.err 2⟩ : DataIterView)).map DataIterView.status =
        some (Status.err 2) := by
  exact ⟨by decide, by decide, by decide⟩

/-- C7 amended: `Valid`, `key` and `value` delegate to the data iterator;
`status` returns the index iterator's status when it is non-ok, otherwise
the data iterator's status when one is present and non-ok, otherwise the
saved status — so the data iterator's status is surfaced exactly when the
index iterator's status is ok. -/
theorem twoLevel_accessor_spec (s : TwoLevelIterState) (d : DataIterView)
    (hd : s.dataIter = some d) :
    tlValid s = d.valid ∧ tlKey s = d.key ∧ tlValue s = d.value ∧
    (s.indexStatus ≠ Status.ok → tlStatus s = s.indexStatus) ∧
    (s.indexStatus = Status.ok → d.status ≠ Status.ok →
      tlStatus s = d.status) := by
  refine ⟨?_, ?_, ?_, ?_, ?_⟩
  · unfold tlValid; rw [hd]
  · unfold tlKey; rw [hd]
  · unfold tlValue; rw [hd]
  · intro hidx
    unfold tlStatus
    rw [if_pos hidx]
  · intro hidx hdat
    unfold tlStatus
    rw [if_neg (by simp [hidx]), hd]
    simp [hdat]

/-- Witness for the amended C7: index ok, data iterator errored — the
data-iterator status is surfaced. -/
theorem twoLevel_accessor_spec_witness :
    (⟨Status.ok, Status.ok, some ⟨true, [3], [4], Status.err 2⟩⟩ :
        TwoLevelIterState).dataIter = some ⟨true, [3], [4], Status.err 2⟩ ∧
    (tlValid ⟨Status.ok, Status.ok, some ⟨true, [3], [4], Status.err 2⟩⟩ = true ∧
      tlKey ⟨Status.ok, Status.ok, some ⟨true, [3], [4], Status.err 2⟩⟩ = [3] ∧
      tlValue ⟨Status.ok, Status.ok, some ⟨true, [3], [4], Status.err 2⟩⟩ = [4] ∧
      tlStatus ⟨Status.ok, Status.ok, some ⟨true, [3], [4], Status.err 2⟩⟩ =
        Status.err 2) :=
  ⟨rfl,
    (fun h => ⟨h.1, h.2.1, h.2.2.1, h.2.2.2.2 rfl (by decide)⟩)
      (twoLevel_accessor_spec
        ⟨Status.ok, Status.ok, some ⟨true, [3], [4], Status.err 2⟩⟩
        ⟨true, [3], [4], Status.err 2⟩ rfl)⟩

/-! ## C2: `WriteRawBlock` -/

/-- C2: in an ok state, when both file appends succeed,
`WriteRawBlock(contents, type, handle)` sets
`handle = {offset = r.offset, size = contents.length}`, appends exactly
`contents` followed by the 5-byte trailer — the type byte and the 4-byte
little-endian masked CRC-32C of `contents ++ [type byte]` — and advances
the builder's file offset by `contents.length + 5`. -/
theorem writeRawBlock_spec (env : FileEnv) (r : Rep) (contents : List Nat)
    (t : CompressionType) (_hok : r.status = Status.ok)
    (henv : ∀ b, env.appendRes b = Status.ok) :
    (writeRawBlock env r contents t).2 = ⟨r.offset, contents.length⟩ ∧
    (writeRawBlock env r contents t).1.file =
      r.file ++ contents ++
        t.byte :: putFixed32 (crc32cMask (crc32cValue (contents ++ [t.byte]))) ∧
    (writeRawBlock env r contents t).1.offset =
      r.offset + contents.length + 5 := by
  unfold writeRawBlock
  simp [henv, crc32cValue, crc32cExtend_append, kBlockTrailerSize,
    List.append_assoc]

/-- Witness for C2: the always-ok file, a fresh builder, contents `[7]`,
type `kNoCompression`. -/
theorem writeRawBlock_spec_witness :
    (initRep ⟨4096, 16, CompressionType.noCompression, fun _ => none,
        fun a _ => a, fun a => a, none⟩).status = Status.ok ∧
    ((writeRawBlock ⟨fun _ => Status.ok, Status.ok⟩
        (initRep ⟨4096, 16, CompressionType.noCompression, fun _ => none,
          fun a _ => a, fun a => a, none⟩) [7]
        CompressionType.noCompression).2 =
      ⟨(initRep ⟨4096, 16, CompressionType.noCompression, fun _ => none,
          fun a _ => a, fun a => a, none⟩).offset, ([7] : List Nat).length⟩ ∧
    (writeRawBlock ⟨fun _ => Status.ok, Status.ok⟩
        (initRep ⟨4096, 16, CompressionType.noCompression, fun _ => none,
          fun a _ => a, fun a => a, none⟩) [7]
        CompressionType.noCompression).1.file =
      (initRep ⟨4096, 16, CompressionType.noCompression, fun _ => none,
          fun a _ => a, fun a => a, none⟩).file ++ [7] ++
        CompressionType.noCompression.byte ::
          putFixed32 (crc32cMask (crc32cValue
            ([7] ++ [CompressionType.noCompression.byte]))) ∧
    (writeRawBlock ⟨fun _ => Status.ok, Status.ok⟩
        (initRep ⟨4096, 16, CompressionType.noCompression, fun _ => none,
          fun a _ => a, fun a => a, none⟩) [7]
        CompressionType.noCompression).1.offset =
      (initRep ⟨4096, 16, CompressionType.noCompression, fun _ => none,
          fun a _ => a, fun a => a, none⟩).offset + ([7] : List Nat).length + 5) :=
  ⟨rfl,
    writeRawBlock_spec ⟨fun _ => Status.ok, Status.ok⟩
      (initRep ⟨4096, 16, CompressionType.noCompression, fun _ => none,
        fun a _ => a, fun a => a, none⟩) [7] CompressionType.noCompression rfl
      (fun _ => rfl)⟩

/-! ## C6: the snappy compression threshold in `WriteBlock` -/

/-- C6: with snappy compression configured, `WriteBlock` stores the
compressed form exactly when `Snappy_Compress` succeeds and its output is
strictly shorter than `raw.size - raw.size / 8`; in every other case
(compression failed/unsupported, or insufficient ratio) it stores the raw
contents with the type forced to `kNoCompression`. -/
theorem writeBlock_snappy_spec (env : FileEnv) (opt : BuildOptions) (r : Rep)
    (bb : BlockBuilder)
    (hc : opt.compression = CompressionType.snappyCompression) :
    (∀ compressed, opt.snappyCompress bb.finish = some compressed →
      compressed.length < bb.finish.length - bb.finish.length / 8 →
      writeBlock env opt r bb =
        ((writeRawBlock env r compressed CompressionType.snappyCompression).1,
         (writeRawBlock env r compressed CompressionType.snappyCompression).2,
         blockBuilderInit)) ∧
    (∀ compressed, opt.snappyCompress bb.finish = some compressed →
      ¬ compressed.length < bb.finish.length - bb.finish.length / 8 →
      writeBlock env opt r bb =
        ((writeRawBlock env r bb.finish CompressionType.noCompression).1,
         (writeRawBlock env r bb.finish CompressionType.noCompression).2,
         blockBuilderInit)) ∧
    (opt.snappyCompress bb.finish = none →
      writeBlock env opt r bb =
        ((writeRawBlock env r bb.finish CompressionType.noCompression).1,
         (writeRawBlock env r bb.finish CompressionType.noCompression).2,
         blockBuilderInit)) := by
  refine ⟨?_, ?_, ?_⟩
  · intro compressed hs hlt
    unfold writeBlock
    rw [hc]
    dsimp only
    rw [hs]
    dsimp only
    rw [if_pos hlt]
  · intro compressed hs hlt
    unfold writeBlock
    rw [hc]
    dsimp only
    rw [hs]
    dsimp only
    rw [if_neg hlt]
  · intro hs
    unfold writeBlock
    rw [hc]
    dsimp only
    rw [hs]

/-- Witness for C6: a snappy that keeps the first byte (ratio good enough on
the empty block builder's 8-byte raw contents), so the compressed branch is
taken. -/
theorem writeBlock_snappy_spec_witness :
    (⟨4096, 16, CompressionType.snappyCompression,
        fun l => some (l.take 1), fun a _ => a, fun a => a, none⟩ :
        BuildOptions).compression = CompressionType.snappyCompression ∧
    (⟨4096, 16, CompressionType.snappyCompression,
        fun l => some (l.take 1), fun a _ => a, fun a => a, none⟩ :
        BuildOptions).snappyCompress blockBuilderInit.finish = some [0] ∧
    ([0] : List Nat).length <
      blockBuilderInit.finish.length - blockBuilderInit.finish.length / 8 ∧
    writeBlock ⟨fun _ => Status.ok, Status.ok⟩
        ⟨4096, 16, CompressionType.snappyCompression,
          fun l => some (l.take 1), fun a _ => a, fun a => a, none⟩
        (initRep ⟨4096, 16, CompressionType.snappyCompression,
          fun l => some (l.take 1), fun a _ => a, fun a => a, none⟩) blockBuilderInit =
      ((writeRawBlock ⟨fun _ => Status.ok, Status.ok⟩ (initRep ⟨4096, 16, CompressionType.snappyCompression,
          fun l => some (l.take 1), fun a _ => a, fun a => a, none⟩) [0]
          CompressionType.snappyCompression).1,
       (writeRawBlock ⟨fun _ => Status.ok, Status.ok⟩ (initRep ⟨4096, 16, CompressionType.snappyCompression,
          fun l => some (l.take 1), fun a _ => a, fun a => a, none⟩) [0]
          CompressionType.snappyCompression).2,
       blockBuilderInit) :=
  ⟨rfl, by decide, by decide,
    (writeBlock_snappy_spec ⟨fun _ => Status.ok, Status.ok⟩
      ⟨4096, 16, CompressionType.snappyCompression, fun l => some (l.take 1),
        fun a _ => a, fun a => a, none⟩
      (initRep ⟨4096, 16, CompressionType.snappyCompression,
          fun l => some (l.take 1), fun a _ => a, fun a => a, none⟩) blockBuilderInit rfl).1 [0] (by decide) (by decide)⟩

/-! ## C5: `FilterBlockBuilder::StartBlock` -/

/-- Every `GenerateFilter` call records exactly one filter offset. -/
theorem generateFilter_offsets_length (cf : List (List Nat) → List Nat)
    (b : FilterBlockBuilder) :
    (b.generateFilter cf).filterOffsets.length = b.filterOffsets.length + 1 := by
  unfold FilterBlockBuilder.generateFilter
  split <;> simp

/-- With no pending keys, `GenerateFilter` only records an offset. -/
theorem generateFilter_of_no_keys (cf : List (List Nat) → List Nat)
    (b : FilterBlockBuilder) (h : b.start = []) :
    b.generateFilter cf =
      { b with filterOffsets := b.filterOffsets ++ [b.result.length] } := by
  unfold FilterBlockBuilder.generateFilter
  rw [if_pos (by simp [h])]

/-- The `StartBlock` loop over a builder with no pending keys appends `k`
copies of the current result size to the offset array and changes nothing
else. -/
theorem startBlockLoop_no_keys (cf : List (List Nat) → List Nat) (k : Nat) :
    ∀ b : FilterBlockBuilder, ∀ i : Nat, b.start = [] →
      b.filterOffsets.length + k = i →
      FilterBlockBuilder.startBlockLoop cf k b i =
        { b with filterOffsets :=
            b.filterOffsets ++ List.replicate k b.result.length } := by
  induction k with
  | zero => intro b i hs hk; simp [FilterBlockBuilder.startBlockLoop]
  | succ k ih =>
    intro b i hs hk
    unfold FilterBlockBuilder.startBlockLoop
    rw [if_pos (by omega)]
    rw [generateFilter_of_no_keys cf b hs]
    rw [ih _ i (by simpa using hs) (by simpa using (by omega : b.filterOffsets.length + 1 + k = i))]
    simp [List.replicate_succ]

/-- The `StartBlock` loop with pending keys and positive fuel: the first
`GenerateFilter` emits the policy's filter over the pending keys and clears
them, the remaining `k` iterations each record an empty filter at the new
result size. -/
theorem startBlockLoop_with_keys (cf : List (List Nat) → List Nat) (k : Nat)
    (b : FilterBlockBuilder) (i : Nat) (hne : b.start ≠ [])
    (hk : b.filterOffsets.length + k + 1 = i) :
    FilterBlockBuilder.startBlockLoop cf (k + 1) b i =
      { keys := [], start := [],
        result := b.result ++ cf b.tmpKeys,
        filterOffsets := b.filterOffsets ++ b.result.length ::
          List.replicate k (b.result ++ cf b.tmpKeys).length } := by
  unfold FilterBlockBuilder.startBlockLoop
  rw [if_pos (by omega)]
  have hgen : b.generateFilter cf =
      ⟨[], [], b.result ++ cf b.tmpKeys,
        b.filterOffsets ++ [b.result.length]⟩ := by
    unfold FilterBlockBuilder.generateFilter
    rw [if_neg (by simp [hne])]
  rw [hgen]
  rw [startBlockLoop_no_keys cf k _ i rfl (by simp; omega)]
  simp [List.replicate_succ]

/-- C5: for every call `StartBlock(block_offset)` with
`i = block_offset >> base_lg` at least `filter_offsets_.size()` (the
asserted precondition), after the call `filter_offsets_.size() = i`; when
filters are emitted and keys are pending, the first filter consumes the
pending keys and the remaining emitted filters are empty, their recorded
offsets all equal to the (new) result size; with no pending keys all
emitted filters are empty at the current result size. -/
theorem startBlock_spec (cf : List (List Nat) → List Nat)
    (b : FilterBlockBuilder) (blockOffset : Nat)
    (h : b.filterOffsets.length ≤ blockOffset / kFilterBase) :
    (FilterBlockBuilder.startBlock cf b blockOffset).filterOffsets.length =
      blockOffset / kFilterBase ∧
    (b.start = [] →
      FilterBlockBuilder.startBlock cf b blockOffset =
        { b with filterOffsets := (b.filterOffsets ++
            List.replicate (blockOffset / kFilterBase - b.filterOffsets.length)
              b.result.length) }) ∧
    (b.start ≠ [] → b.filterOffsets.length < blockOffset / kFilterBase →
      FilterBlockBuilder.startBlock cf b blockOffset =
        { keys := [], start := [],
          result := b.result ++ cf b.tmpKeys,
          filterOffsets := b.filterOffsets ++ b.result.length ::
            List.replicate
              (blockOffset / kFilterBase - b.filterOffsets.length - 1)
              (b.result ++ cf b.tmpKeys).length }) := by
  have hdef : FilterBlockBuilder.startBlock cf b blockOffset =
      FilterBlockBuilder.startBlockLoop cf
        (blockOffset / kFilterBase - b.filterOffsets.length) b
        (blockOffset / kFilterBase) := rfl
  rw [hdef]
  by_cases hs : b.start = []
  · have hloop := startBlockLoop_no_keys cf
      (blockOffset / kFilterBase - b.filterOffsets.length) b
      (blockOffset / kFilterBase) hs (by omega)
    rw [hloop]
    refine ⟨by simp; omega, fun _ => rfl, fun hne _ => absurd hs hne⟩
  · rcases Nat.eq_or_lt_of_le h with heq | hlt
    · have h0 : blockOffset / kFilterBase - b.filterOffsets.length = 0 := by
        omega
      rw [h0]
      exact ⟨by simp [FilterBlockBuilder.startBlockLoop]; omega,
        fun he => absurd he hs,
        fun _ hlt2 => by omega⟩
    · obtain ⟨k, hk⟩ : ∃ k, blockOffset / kFilterBase - b.filterOffsets.length
          = k + 1 := ⟨blockOffset / kFilterBase - b.filterOffsets.length - 1,
            by omega⟩
      rw [hk]
      have hloop := startBlockLoop_with_keys cf k b
        (blockOffset / kFilterBase) hs (by omega)
      rw [hloop]
      refine ⟨by simp; omega, fun he => absurd he hs, fun _ _ => ?_⟩
      simp

/-- Witness for C5: one pending key, `StartBlock(2 * 2048)` from a fresh
builder — two filters are emitted, the first consuming the key. -/
theorem startBlock_spec_witness :
    (fbInit.addKey [1]).filterOffsets.length ≤ 4096 / kFilterBase ∧
    (FilterBlockBuilder.startBlock (fun ks => [ks.length]) (fbInit.addKey [1])
        4096).filterOffsets.length = 4096 / kFilterBase ∧
    FilterBlockBuilder.startBlock (fun ks => [ks.length]) (fbInit.addKey [1])
        4096 =
      { keys := [], start := [],
        result := (fbInit.addKey [1]).result ++
          (fun ks : List (List Nat) => [ks.length]) (fbInit.addKey [1]).tmpKeys,
        filterOffsets := (fbInit.addKey [1]).filterOffsets ++
          (fbInit.addKey [1]).result.length ::
            List.replicate
              (4096 / kFilterBase - (fbInit.addKey [1]).filterOffsets.length - 1)
              ((fbInit.addKey [1]).result ++
                (fun ks : List (List Nat) => [ks.length])
                  (fbInit.addKey [1]).tmpKeys).length } :=
  ⟨by decide,
    (startBlock_spec (fun ks => [ks.length]) (fbInit.addKey [1]) 4096
      (by decide)).1,
    (startBlock_spec (fun ks => [ks.length]) (fbInit.addKey [1]) 4096
      (by decide)).2.2 (by decide) (by decide)⟩

/-! ## C4: the `pending_index_entry` invariant -/

/-- A varint encoding is never empty. -/
theorem putVarint_ne_nil (v : Nat) : putVarint v ≠ [] := by
  rw [putVarint]
  split <;> simp

/-- Adding a record to a block builder leaves its buffer nonempty. -/
theorem blockBuilder_add_not_empty (interval : Nat) (bb : BlockBuilder)
    (key value : List Nat) :
    (bb.add interval key value).isBufferEmpty = false := by
  unfold BlockBuilder.add BlockBuilder.isBufferEmpty
  split <;> simp [putVarint_ne_nil]

/-- Under an always-ok file, `WriteRawBlock` leaves an ok status. -/
theorem writeRawBlock_ok_status (env : FileEnv) (r : Rep)
    (contents : List Nat) (t : CompressionType)
    (henv : ∀ b, env.appendRes b = Status.ok) :
    (writeRawBlock env r contents t).1.status = Status.ok := by
  unfold writeRawBlock
  simp [henv]

/-- Under an always-ok file and with a nonempty data block, `Flush` writes
the block: afterwards the status is ok, `pending_index_entry` is set, the
data block is reset (empty) and the ghost data-block counter is bumped. -/
theorem tbFlush_fields (env : FileEnv) (opt : BuildOptions) (r : Rep)
    (henv : ∀ b, env.appendRes b = Status.ok)
    (hfl : env.flushRes = Status.ok) (hst : r.status = Status.ok)
    (hne : r.dataBlock.isBufferEmpty = false) :
    (tbFlush env opt r).status = Status.ok ∧
    (tbFlush env opt r).pendingIndexEntry = true ∧
    (tbFlush env opt r).dataBlock = blockBuilderInit ∧
    (tbFlush env opt r).dataBlocksWritten = r.dataBlocksWritten + 1 := by
  unfold tbFlush
  rw [if_neg (by simp [hst]), if_neg (by simp [hne])]
  unfold writeBlock writeRawBlock
  dsimp only
  simp only [henv, if_pos]
  repeat' split <;> simp_all

/-- `Flush` on an ok builder with an empty data block is a no-op. -/
theorem tbFlush_noop_of_empty (env : FileEnv) (opt : BuildOptions) (r : Rep)
    (hst : r.status = Status.ok) (he : r.dataBlock.isBufferEmpty = true) :
    tbFlush env opt r = r := by
  unfold tbFlush
  rw [if_neg (by simp [hst]), if_pos he]

/-- `Flush` preserves the `pending_index_entry` invariant (and ok status)
under an always-ok file. -/
theorem tbFlush_inv (env : FileEnv) (opt : BuildOptions) (r : Rep)
    (henv : ∀ b, env.appendRes b = Status.ok)
    (hfl : env.flushRes = Status.ok) (hst : r.status = Status.ok)
    (hinv : r.pendingIndexEntry = true ↔
      (r.dataBlock.isBufferEmpty = true ∧ 1 ≤ r.dataBlocksWritten)) :
    (tbFlush env opt r).status = Status.ok ∧
    ((tbFlush env opt r).pendingIndexEntry = true ↔
      ((tbFlush env opt r).dataBlock.isBufferEmpty = true ∧
        1 ≤ (tbFlush env opt r).dataBlocksWritten)) := by
  by_cases he : r.dataBlock.isBufferEmpty = true
  · rw [tbFlush_noop_of_empty env opt r hst he]
    exact ⟨hst, hinv⟩
  · obtain ⟨h1, h2, h3, h4⟩ := tbFlush_fields env opt r henv hfl hst
      (by simpa using he)
    refine ⟨h1, ?_⟩
    rw [h2, h3, h4]
    simp [blockBuilderInit, BlockBuilder.isBufferEmpty]

/-- At the end of `Add`, the state has a nonempty data block, a cleared
`pending_index_entry` and an ok status; whether or not the size estimate
triggers a `Flush`, the invariant holds afterwards. -/
theorem addTail_inv (env : FileEnv) (opt : BuildOptions) (c : Prop)
    [Decidable c] (r3 : Rep)
    (henv : ∀ b, env.appendRes b = Status.ok)
    (hfl : env.flushRes = Status.ok) (hst3 : r3.status = Status.ok)
    (hne : r3.dataBlock.isBufferEmpty = false)
    (hp : r3.pendingIndexEntry = false) :
    (if c then tbFlush env opt r3 else r3).status = Status.ok ∧
    ((if c then tbFlush env opt r3 else r3).pendingIndexEntry = true ↔
      ((if c then tbFlush env opt r3 else r3).dataBlock.isBufferEmpty = true ∧
        1 ≤ (if c then tbFlush env opt r3 else r3).dataBlocksWritten)) := by
  split
  · obtain ⟨h1, h2, h3, h4⟩ := tbFlush_fields env opt r3 henv hfl hst3 hne
    rw [h1, h2, h3, h4]
    simp [blockBuilderInit, BlockBuilder.isBufferEmpty]
  · rw [hst3, hp, hne]
    simp

/-- `Add` preserves the `pending_index_entry` invariant (and ok status)
under an always-ok file. -/
theorem tbAdd_inv (env : FileEnv) (opt : BuildOptions) (r : Rep)
    (key value : List Nat)
    (henv : ∀ b, env.appendRes b = Status.ok)
    (hfl : env.flushRes = Status.ok) (hst : r.status = Status.ok)
    (_hinv : r.pendingIndexEntry = true ↔
      (r.dataBlock.isBufferEmpty = true ∧ 1 ≤ r.dataBlocksWritten)) :
    (tbAdd env opt r key value).status = Status.ok ∧
    ((tbAdd env opt r key value).pendingIndexEntry = true ↔
      ((tbAdd env opt r key value).dataBlock.isBufferEmpty = true ∧
        1 ≤ (tbAdd env opt r key value).dataBlocksWritten)) := by
  unfold tbAdd
  rw [if_neg (by simp [hst])]
  dsimp only
  apply addTail_inv env opt _ _ henv hfl
  · rcases Bool.eq_false_or_eq_true r.pendingIndexEntry with hp | hp <;>
      cases hfb : r.filterBlock <;> simp [hp, hfb, hst]
  · rcases Bool.eq_false_or_eq_true r.pendingIndexEntry with hp | hp <;>
      cases hfb : r.filterBlock <;> simp [hp, hfb, blockBuilder_add_not_empty]
  · rcases Bool.eq_false_or_eq_true r.pendingIndexEntry with hp | hp <;>
      cases hfb : r.filterBlock <;> simp [hp, hfb]

/-- The invariant (with ok status) holds after any sequence of public
building operations from the initial state, under an always-ok file. -/
theorem applyOps_inv (env : FileEnv) (opt : BuildOptions)
    (henv : ∀ b, env.appendRes b = Status.ok)
    (hfl : env.flushRes = Status.ok) (ops : List BuilderOp) :
    ∀ r : Rep, r.status = Status.ok →
      (r.pendingIndexEntry = true ↔
        (r.dataBlock.isBufferEmpty = true ∧ 1 ≤ r.dataBlocksWritten)) →
      (applyOps env opt r ops).status = Status.ok ∧
      ((applyOps env opt r ops).pendingIndexEntry = true ↔
        ((applyOps env opt r ops).dataBlock.isBufferEmpty = true ∧
          1 ≤ (applyOps env opt r ops).dataBlocksWritten)) := by
  induction ops with
  | nil => intro r hst hinv; exact ⟨hst, hinv⟩
  | cons op rest ih =>
    intro r hst hinv
    have hstep : (applyOp env opt r op).status = Status.ok ∧
        ((applyOp env opt r op).pendingIndexEntry = true ↔
          ((applyOp env opt r op).dataBlock.isBufferEmpty = true ∧
            1 ≤ (applyOp env opt r op).dataBlocksWritten)) := by
      cases op with
      | add k v => exact tbAdd_inv env opt r k v henv hfl hst hinv
      | flush => exact tbFlush_inv env opt r henv hfl hst hinv
    exact ih (applyOp env opt r op) hstep.1 hstep.2

/-- C4: for every sequence of public `TableBuilder` operations executed
with ok status (always-ok file) starting from the freshly constructed
builder, at every point between operations `pending_index_entry` holds iff
the data block is empty and at least one data block has been written.
(`Finish`/`Abandon` set `closed`, which every public operation asserts
false, so in a well-formed sequence they are terminal and no point between
operations follows them.) -/
theorem pendingIndexEntry_invariant (env : FileEnv) (opt : BuildOptions)
    (ops : List BuilderOp)
    (henv : ∀ b, env.appendRes b = Status.ok)
    (hfl : env.flushRes = Status.ok) :
    (applyOps env opt (initRep opt) ops).pendingIndexEntry = true ↔
      ((applyOps env opt (initRep opt) ops).dataBlock.isBufferEmpty = true ∧
        1 ≤ (applyOps env opt (initRep opt) ops).dataBlocksWritten) :=
  (applyOps_inv env opt henv hfl ops (initRep opt) rfl
    (by simp [initRep])).2

/-- Witness for C4: two `Add`s and an explicit `Flush` against the always-ok
file. -/
theorem pendingIndexEntry_invariant_witness :
    (∀ b, (⟨fun _ => Status.ok, Status.ok⟩ : FileEnv).appendRes b = Status.ok) ∧
    ((applyOps ⟨fun _ => Status.ok, Status.ok⟩
        ⟨4096, 16, CompressionType.noCompression, fun _ => none,
          fun a _ => a, fun a => a, none⟩
        (initRep ⟨4096, 16, CompressionType.noCompression, fun _ => none,
          fun a _ => a, fun a => a, none⟩)
        [BuilderOp.add [1] [7], BuilderOp.add [2] [8], BuilderOp.flush]).pendingIndexEntry = true ↔
      ((applyOps ⟨fun _ => Status.ok, Status.ok⟩
          ⟨4096, 16, CompressionType.noCompression, fun _ => none,
            fun a _ => a, fun a => a, none⟩
          (initRep ⟨4096, 16, CompressionType.noCompression, fun _ => none,
            fun a _ => a, fun a => a, none⟩)
          [BuilderOp.add [1] [7], BuilderOp.add [2] [8], BuilderOp.flush]).dataBlock.isBufferEmpty = true ∧
        1 ≤ (applyOps ⟨fun _ => Status.ok, Status.ok⟩
          ⟨4096, 16, CompressionType.noCompression, fun _ => none,
            fun a _ => a, fun a => a, none⟩
          (initRep ⟨4096, 16, CompressionType.noCompression, fun _ => none,
            fun a _ => a, fun a => a, none⟩)
          [BuilderOp.add [1] [7], BuilderOp.add [2] [8], BuilderOp.flush]).dataBlocksWritten)) :=
  ⟨fun _ => rfl,
    pendingIndexEntry_invariant ⟨fun _ => Status.ok, Status.ok⟩
      ⟨4096, 16, CompressionType.noCompression, fun _ => none,
        fun a _ => a, fun a => a, none⟩
      [BuilderOp.add [1] [7], BuilderOp.add [2] [8], BuilderOp.flush]
      (fun _ => rfl) rfl⟩

/-! ## C1: the merging iterator yields the sorted merge -/

/-- Unfolding equation of the `FindSmallest` scan on a nonempty child list. -/
theorem findSmallestAux_cons {α β : Type _} [LinearOrder α]
    (best : Option (Nat × α)) (i : Nat) (c : List (α × β))
    (rest : List (List (α × β))) :
    findSmallestAux best i (c :: rest) =
      findSmallestAux
        (match c with
         | [] => best
         | (k, _) :: _ =>
           match best with
           | none => some (i, k)
           | some (_, bk) => if k < bk then some (i, k) else best)
        (i + 1) rest := rfl

/-- Unfolding equation of the iteration when no child is valid. -/
theorem mergeForwardFuel_succ_none {α β : Type _} [LinearOrder α]
    (fuel : Nat) (cs : List (List (α × β))) (h : findSmallest cs = none) :
    mergeForwardFuel (fuel + 1) cs = [] := by
  rw [mergeForwardFuel, h]

/-- Unfolding equation of the iteration when a smallest child exists. -/
theorem mergeForwardFuel_succ_some {α β : Type _} [LinearOrder α]
    (fuel : Nat) (cs : List (List (α × β))) (i : Nat) (k : α) (e : α × β)
    (t : List (α × β)) (h : findSmallest cs = some (i, k))
    (hg : cs.getD i [] = e :: t) :
    mergeForwardFuel (fuel + 1) cs = e :: mergeForwardFuel fuel (cs.set i t) := by
  rw [mergeForwardFuel, h]
  dsimp only
  rw [hg]

/-- If the `FindSmallest` scan returns nothing, it started with no best
child and every scanned child is exhausted. -/
theorem findSmallestAux_none {α β : Type _} [LinearOrder α] :
    ∀ (cs : List (List (α × β))) (best : Option (Nat × α)) (i : Nat),
      findSmallestAux best i cs = none → best = none ∧ ∀ c ∈ cs, c = [] := by
  intro cs
  induction cs with
  | nil => intro best i h; exact ⟨h, by simp⟩
  | cons c rest ih =>
    intro best i h
    rw [findSmallestAux_cons] at h
    rcases ih _ _ h with ⟨hb, hrest⟩
    cases c with
    | nil => exact ⟨hb, by simpa using hrest⟩
    | cons e tc =>
      exfalso
      obtain ⟨ke, ve⟩ := e
      cases best with
      | none => simp at hb
      | some p =>
        obtain ⟨jb, kb⟩ := p
        by_cases hlt : ke < kb <;> simp [hlt] at hb

/-- Shifting a child-location fact across one scanned child. -/
theorem loc_shift {α β : Type _} (c : List (α × β))
    (rest : List (List (α × β))) (i j : Nat) (k : α)
    (h1 : i + 1 ≤ j) (h2 : j - (i + 1) < rest.length) (v : β)
    (t : List (α × β)) (h3 : rest.getD (j - (i + 1)) [] = (k, v) :: t) :
    i ≤ j ∧ j - i < (c :: rest).length ∧
      ∃ v t, (c :: rest).getD (j - i) [] = (k, v) :: t := by
  refine ⟨by omega, by simp; omega, v, t, ?_⟩
  obtain ⟨d, hd⟩ : ∃ d, j - i = d + 1 := ⟨j - i - 1, by omega⟩
  rw [hd, List.getD_cons_succ]
  have hdd : j - (i + 1) = d := by omega
  rw [hdd] at h3
  exact h3

/-- If the `FindSmallest` scan returns `(j, k)`, the result is either the
initial best or points at a scanned child (at list position `j - i`) whose
head key is `k`. -/
theorem findSmallestAux_loc {α β : Type _} [LinearOrder α] :
    ∀ (cs : List (List (α × β))) (best : Option (Nat × α)) (i j : Nat) (k : α),
      findSmallestAux best i cs = some (j, k) →
      best = some (j, k) ∨
        (i ≤ j ∧ j - i < cs.length ∧
          ∃ v t, cs.getD (j - i) [] = (k, v) :: t) := by
  intro cs
  induction cs with
  | nil =>
    intro best i j k h
    exact Or.inl h
  | cons c rest ih =>
    intro best i j k h
    rw [findSmallestAux_cons] at h
    cases c with
    | nil =>
      dsimp only at h
      rcases ih _ (i + 1) j k h with hb | ⟨h1, h2, v, t, h3⟩
      · exact Or.inl hb
      · exact Or.inr (loc_shift _ rest i j k h1 h2 v t h3)
    | cons e tc =>
      obtain ⟨kc, vc⟩ := e
      cases best with
      | none =>
        dsimp only at h
        rcases ih _ (i + 1) j k h with hb | ⟨h1, h2, v, t, h3⟩
        · obtain ⟨rfl, rfl⟩ : i = j ∧ kc = k := by simpa using hb
          exact Or.inr ⟨le_rfl, by simp, vc, tc, by simp⟩
        · exact Or.inr (loc_shift _ rest i j k h1 h2 v t h3)
      | some p =>
        obtain ⟨jb, kb⟩ := p
        dsimp only at h
        by_cases hlt : kc < kb
        · rw [if_pos hlt] at h
          rcases ih _ (i + 1) j k h with hb | ⟨h1, h2, v, t, h3⟩
          · obtain ⟨rfl, rfl⟩ : i = j ∧ kc = k := by simpa using hb
            exact Or.inr ⟨le_rfl, by simp, vc, tc, by simp⟩
          · exact Or.inr (loc_shift _ rest i j k h1 h2 v t h3)
        · rw [if_neg hlt] at h
          rcases ih _ (i + 1) j k h with hb | ⟨h1, h2, v, t, h3⟩
          · exact Or.inl hb
          · exact Or.inr (loc_shift _ rest i j k h1 h2 v t h3)

/-- The key returned by the `FindSmallest` scan is no larger than the
initial best's key nor than any scanned child's head key. -/
theorem findSmallestAux_min {α β : Type _} [LinearOrder α] :
    ∀ (cs : List (List (α × β))) (best : Option (Nat × α)) (i j : Nat) (k : α),
      findSmallestAux best i cs = some (j, k) →
      (∀ jb kb, best = some (jb, kb) → k ≤ kb) ∧
      (∀ off, off < cs.length → ∀ k' v' t',
        cs.getD off [] = (k', v') :: t' → k ≤ k') := by
  intro cs
  induction cs with
  | nil =>
    intro best i j k h
    refine ⟨?_, ?_⟩
    · intro jb kb hb
      rw [hb] at h
      obtain ⟨h1, h2⟩ : jb = j ∧ kb = k := by
        simpa [findSmallestAux] using h
      exact le_of_eq h2.symm
    · intro off hoff; simp at hoff
  | cons c rest ih =>
    intro best i j k h
    rw [findSmallestAux_cons] at h
    have hih := ih _ (i + 1) j k h
    cases c with
    | nil =>
      refine ⟨hih.1, ?_⟩
      intro off hoff k' v' t' hget
      cases off with
      | zero => simp at hget
      | succ d =>
        rw [List.getD_cons_succ] at hget
        exact hih.2 d (by simpa using hoff) k' v' t' hget
    | cons e tc =>
      obtain ⟨kc, vc⟩ := e
      have hhead : k ≤ kc ∧ (∀ jb kb, best = some (jb, kb) → k ≤ kb) := by
        cases best with
        | none =>
          exact ⟨hih.1 i kc rfl, by intro jb kb hb; cases hb⟩
        | some p =>
          obtain ⟨jb0, kb0⟩ := p
          by_cases hlt : kc < kb0
          · have hk : k ≤ kc := hih.1 i kc (by simp [hlt])
            refine ⟨hk, ?_⟩
            intro jb kb hb
            obtain ⟨rfl, rfl⟩ : jb0 = jb ∧ kb0 = kb := by simpa using hb
            exact le_trans hk (le_of_lt hlt)
          · have hk : k ≤ kb0 := hih.1 jb0 kb0 (by simp [hlt])
            refine ⟨le_trans hk (not_lt.mp hlt), ?_⟩
            intro jb kb hb
            obtain ⟨rfl, rfl⟩ : jb0 = jb ∧ kb0 = kb := by simpa using hb
            exact hk
      refine ⟨hhead.2, ?_⟩
      intro off hoff k' v' t' hget
      cases off with
      | zero =>
        rw [List.getD_cons_zero] at hget
        obtain ⟨⟨h1, _⟩, _⟩ : (kc = k' ∧ vc = v') ∧ tc = t' := by
          simpa using hget
        exact h1 ▸ hhead.1
      | succ d =>
        rw [List.getD_cons_succ] at hget
        exact hih.2 d (by simpa using hoff) k' v' t' hget

/-- `FindSmallest` over the whole child array: the returned index is in
range and points at a child whose head key is the returned key. -/
theorem findSmallest_loc {α β : Type _} [LinearOrder α]
    (cs : List (List (α × β))) (i : Nat) (k : α)
    (h : findSmallest cs = some (i, k)) :
    i < cs.length ∧ ∃ v t, cs.getD i [] = (k, v) :: t := by
  rcases findSmallestAux_loc cs none 0 i k h with hb | ⟨h1, h2, v, t, h3⟩
  · cases hb
  · rw [Nat.sub_zero] at h2 h3
    exact ⟨h2, v, t, h3⟩

/-- `FindSmallest` returns a key no larger than any valid child's key. -/
theorem findSmallest_min {α β : Type _} [LinearOrder α]
    (cs : List (List (α × β))) (i : Nat) (k : α)
    (h : findSmallest cs = some (i, k)) :
    ∀ off, off < cs.length → ∀ k' v' t',
      cs.getD off [] = (k', v') :: t' → k ≤ k' :=
  (findSmallestAux_min cs none 0 i k h).2

/-- If `FindSmallest` finds nothing, every child is exhausted. -/
theorem findSmallest_none_all_nil {α β : Type _} [LinearOrder α]
    (cs : List (List (α × β))) (h : findSmallest cs = none) :
    ∀ c ∈ cs, c = [] :=
  (findSmallestAux_none cs none 0 h).2

/-- `sumLen` is the length of the concatenation. -/
theorem sumLen_eq_length_flatten {α β : Type _} (cs : List (List (α × β))) :
    sumLen cs = cs.flatten.length := by
  simp [sumLen]

/-- Concatenation splits around the child at position `i`. -/
theorem flatten_decomp {γ : Type _} (cs : List (List γ)) :
    ∀ i, i < cs.length →
      cs.flatten =
        (cs.take i).flatten ++ cs.getD i [] ++ (cs.drop (i + 1)).flatten := by
  induction cs with
  | nil => intro i h; simp at h
  | cons c rest ih =>
    intro i h
    cases i with
    | zero => simp
    | succ d =>
      have hd := ih d (by simpa using h)
      simp only [List.flatten_cons, List.take_succ_cons, List.getD_cons_succ,
        List.drop_succ_cons]
      rw [hd]
      simp [List.append_assoc]

/-- Concatenation of the array with child `i` replaced. -/
theorem flatten_set {γ : Type _} (cs : List (List γ)) :
    ∀ i (t : List γ), i < cs.length →
      (cs.set i t).flatten =
        (cs.take i).flatten ++ t ++ (cs.drop (i + 1)).flatten := by
  induction cs with
  | nil => intro i t h; simp at h
  | cons c rest ih =>
    intro i t h
    cases i with
    | zero => simp
    | succ d =>
      have hd := ih d t (by simpa using h)
      simp only [List.set_cons_succ, List.flatten_cons, List.take_succ_cons,
        List.drop_succ_cons]
      rw [hd]
      simp [List.append_assoc]

/-- Advancing the chosen child shrinks the total number of entries by one. -/
theorem sumLen_set_succ {α β : Type _} (cs : List (List (α × β))) (i : Nat)
    (e : α × β) (t : List (α × β)) (hlen : i < cs.length)
    (hg : cs.getD i [] = e :: t) :
    sumLen (cs.set i t) + 1 = sumLen cs := by
  have h1 := sumLen_eq_length_flatten cs
  have h2 := sumLen_eq_length_flatten (cs.set i t)
  rw [flatten_decomp cs i hlen, hg] at h1
  rw [flatten_set cs i t hlen] at h2
  simp only [List.length_append, List.length_cons] at h1 h2
  omega

/-- Pulling the head of child `i` to the front is a permutation of the
concatenation. -/
theorem flatten_perm_cons {γ : Type _} (cs : List (List γ)) (i : Nat) (e : γ)
    (t : List γ) (h : i < cs.length) (hg : cs.getD i [] = e :: t) :
    cs.flatten.Perm (e :: (cs.set i t).flatten) := by
  rw [flatten_decomp cs i h, hg, flatten_set cs i t h]
  have h1 : (cs.take i).flatten ++ (e :: t) ++ (cs.drop (i + 1)).flatten
      = (cs.take i).flatten ++ e :: (t ++ (cs.drop (i + 1)).flatten) := by
    simp [List.append_assoc]
  have h2 : ((cs.take i).flatten ++ e :: (t ++ (cs.drop (i + 1)).flatten)).Perm
      (e :: ((cs.take i).flatten ++ (t ++ (cs.drop (i + 1)).flatten))) :=
    List.perm_middle
  have h3 : e :: ((cs.take i).flatten ++ (t ++ (cs.drop (i + 1)).flatten))
      = e :: ((cs.take i).flatten ++ t ++ (cs.drop (i + 1)).flatten) := by
    simp [List.append_assoc]
  rw [h1, ← h3]
  exact h2

/-- A full forward iteration (with enough fuel) is a permutation of the
concatenation of the children. -/
theorem mergeForwardFuel_perm {α β : Type _} [LinearOrder α] :
    ∀ (fuel : Nat) (cs : List (List (α × β))), sumLen cs ≤ fuel →
      (mergeForwardFuel fuel cs).Perm cs.flatten := by
  intro fuel
  induction fuel with
  | zero =>
    intro cs h
    have h0 : cs.flatten = [] := by
      have := sumLen_eq_length_flatten cs
      exact List.eq_nil_of_length_eq_zero (by omega)
    rw [h0]
    exact List.Perm.nil
  | succ fuel ih =>
    intro cs h
    cases hfs : findSmallest cs with
    | none =>
      rw [mergeForwardFuel_succ_none fuel cs hfs]
      have h0 : cs.flatten = [] :=
        List.flatten_eq_nil_iff.mpr (findSmallest_none_all_nil cs hfs)
      rw [h0]
    | some p =>
      obtain ⟨i, k⟩ := p
      obtain ⟨hlen, v, t, hg⟩ := findSmallest_loc cs i k hfs
      rw [mergeForwardFuel_succ_some fuel cs i k (k, v) t hfs hg]
      have hsum : sumLen (cs.set i t) ≤ fuel := by
        have := sumLen_set_succ cs i (k, v) t hlen hg
        omega
      exact ((ih (cs.set i t) hsum).cons (k, v)).trans
        (flatten_perm_cons cs i (k, v) t hlen hg).symm

/-- A full forward iteration (with enough fuel) over sorted children is
sorted by key. -/
theorem mergeForwardFuel_sorted {α β : Type _} [LinearOrder α] :
    ∀ (fuel : Nat) (cs : List (List (α × β))), sumLen cs ≤ fuel →
      (∀ c ∈ cs, keySorted c) → keySorted (mergeForwardFuel fuel cs) := by
  intro fuel
  induction fuel with
  | zero =>
    intro cs h hs
    exact List.sorted_nil
  | succ fuel ih =>
    intro cs h hs
    cases hfs : findSmallest cs with
    | none =>
      rw [mergeForwardFuel_succ_none fuel cs hfs]
      exact List.sorted_nil
    | some p =>
      obtain ⟨i, k⟩ := p
      obtain ⟨hlen, v, t, hg⟩ := findSmallest_loc cs i k hfs
      rw [mergeForwardFuel_succ_some fuel cs i k (k, v) t hfs hg]
      have hmem : (k, v) :: t ∈ cs := by
        rw [← hg, List.getD_eq_getElem _ _ hlen]
        exact List.getElem_mem hlen
      have hsorted_head : keySorted ((k, v) :: t) := hs _ hmem
      have hsum : sumLen (cs.set i t) ≤ fuel := by
        have := sumLen_set_succ cs i (k, v) t hlen hg
        omega
      have hs' : ∀ c ∈ cs.set i t, keySorted c := by
        intro c hc
        rcases List.mem_or_eq_of_mem_set hc with hc' | rfl
        · exact hs c hc'
        · exact List.Pairwise.of_cons hsorted_head
      refine List.sorted_cons.mpr ⟨?_, ih (cs.set i t) hsum hs'⟩
      intro x hx
      have hxf : x ∈ (cs.set i t).flatten :=
        (mergeForwardFuel_perm fuel (cs.set i t) hsum).mem_iff.mp hx
      obtain ⟨c, hcmem, hxc⟩ := List.mem_flatten.mp hxf
      rcases List.mem_or_eq_of_mem_set hcmem with hc' | rfl
      · cases c with
        | nil => cases hxc
        | cons e' t' =>
          obtain ⟨k', v'⟩ := e'
          obtain ⟨off, hoff, hoffeq⟩ := List.mem_iff_getElem.mp hc'
          have hgoff : cs.getD off [] = (k', v') :: t' := by
            rw [List.getD_eq_getElem _ _ hoff, hoffeq]
          have hk' := findSmallest_min cs i k hfs off hoff k' v' t' hgoff
          rcases List.mem_cons.mp hxc with rfl | hxt
          · exact hk'
          · have hcx := (List.sorted_cons.mp (hs _ hc')).1 x hxt
            exact le_trans hk' hcx
      · exact (List.sorted_cons.mp hsorted_head).1 x hxc

/-- C1: for every comparator defining a total order (an arbitrary linearly
ordered key type) and every collection of child iterators with sorted key
sequences, the full forward iteration of the merging iterator
(`SeekToFirst` then `Next` while `Valid`) yields exactly the sorted merge
of the multiset concatenation of the children's key/value sequences: its
output is a permutation of the concatenation (duplicates preserved) and is
sorted by key. -/
theorem mergingIterator_sorted_merge {α β : Type _} [LinearOrder α]
    (cs : List (List (α × β))) (hsorted : ∀ c ∈ cs, keySorted c) :
    (mergeForward cs).Perm cs.flatten ∧ keySorted (mergeForward cs) :=
  ⟨mergeForwardFuel_perm (sumLen cs) cs le_rfl,
    mergeForwardFuel_sorted (sumLen cs) cs le_rfl hsorted⟩

/-- Witness for C1: two sorted children with a duplicated key across them. -/
theorem mergingIterator_sorted_merge_witness :
    (∀ c ∈ ([[(1, 10), (3, 30)], [(2, 20), (3, 31)]] :
        List (List (Nat × Nat))), keySorted c) ∧
    ((mergeForward ([[(1, 10), (3, 30)], [(2, 20), (3, 31)]] :
        List (List (Nat × Nat)))).Perm
      ([[(1, 10), (3, 30)], [(2, 20), (3, 31)]] :
        List (List (Nat × Nat))).flatten ∧
     keySorted (mergeForward ([[(1, 10), (3, 30)], [(2, 20), (3, 31)]] :
        List (List (Nat × Nat))))) :=
  ⟨by decide,
    mergingIterator_sorted_merge [[(1, 10), (3, 30)], [(2, 20), (3, 31)]]
      (by decide)⟩

end LevelDBProof
